import Mathlib

/-!
Verification of the incremental markdown stream renderer
(`src/MarkdownStreamRenderer.js`).

Shallow embedding conventions:
* JS strings are modeled as `List Char` (one element per UTF-16 code unit;
  the inputs relevant here are BMP text, where code units and characters
  coincide).  `charCodeAt` equality becomes `Char` equality, `slice` becomes
  `List.take` / `List.drop`, `+=` becomes `++`.
* The external collaborators `micromark` (parsing) and `DOMPurify.sanitize`
  are out of scope per the spec; they are abstracted as a `Collab` record.
  A parse call that throws is modeled as returning `none`.
* JS timers are modeled by explicit counters in the renderer state:
  `timerCount` counts live `setTimeout` handles of the throttle scheduler and
  `twTimerCount` counts live `setInterval` handles of the typewriter ticker.
  Timer expiry / interval ticks are explicit operations (`throttleFire`,
  `twTick`) of the operational semantics, reflecting the single-threaded,
  cooperative JS execution model.
* A value passed to `write` / `update` is `Option (List Char)`: `none`
  models any non-string JS value, `some s` a string.
-/

/-- The character class of the JS regex `\s` (and of `String.prototype.trim`):
space, tab, line feed, vertical tab, form feed, carriage return, and the
Unicode space separators (NBSP, OGHAM, EN QUAD .. HAIR SPACE, LS, PS, NNBSP,
MMSP, IDEOGRAPHIC SPACE, BOM). -/
def jsWs (c : Char) : Bool :=
  c = ' ' || c = '\t' || c = '\n' || c = '\x0b' || c = '\x0c' || c = '\r' ||
  c = '\u00A0' || c = '\u1680' ||
  (0x2000 ≤ c.toNat && c.toNat ≤ 0x200A) ||
  c = '\u2028' || c = '\u2029' || c = '\u202F' || c = '\u205F' ||
  c = '\u3000' || c = '\uFEFF'

/-- JS `String.prototype.trim`: strip leading and trailing whitespace. -/
def jsTrim (cs : List Char) : List Char :=
  ((cs.dropWhile jsWs).reverse.dropWhile jsWs).reverse

/-- JS `s.startsWith(p)` on char lists (second argument is the candidate
leading segment). -/
def laStarts : List Char → List Char → Bool
  | _, [] => true
  | [], _ :: _ => false
  | c :: cs, p :: ps => c = p && laStarts cs ps

/-- Strip a given leading segment, returning the remainder when it is present. -/
def dropLead : List Char → List Char → Option (List Char)
  | cs, [] => some cs
  | [], _ :: _ => none
  | c :: cs, p :: ps => if c = p then dropLead cs ps else none

/-- Length of the maximal leading run of characters satisfying `p`. -/
def countLeading (p : Char → Bool) : List Char → Nat
  | [] => 0
  | c :: cs => if p c then countLeading p cs + 1 else 0

/-- Character at index `n`, if any (JS `s[n]`). -/
def charAt (cs : List Char) (n : Nat) : Option Char :=
  (cs.drop n).head?

/-- Test for the regex alternative `#{1,6}\s` anchored at the start:
one to six `#` characters followed by a whitespace character. -/
def isHeading (nt : List Char) : Bool :=
  let c := countLeading (fun x => x = '#') nt
  decide (1 ≤ c) && decide (c ≤ 6) &&
    (match charAt nt c with | some d => jsWs d | none => false)

/-- Test for the regex alternative `>\s` anchored at the start. -/
def isBlockquote (nt : List Char) : Bool :=
  (match charAt nt 0 with | some c => c = '>' | none => false) &&
  (match charAt nt 1 with | some c => jsWs c | none => false)

/-- Test for the regex alternative `([-+*])\s` anchored at the start. -/
def isBullet (nt : List Char) : Bool :=
  (match charAt nt 0 with | some c => c = '-' || c = '+' || c = '*' | none => false) &&
  (match charAt nt 1 with | some c => jsWs c | none => false)

/-- Test for the regex alternative `\d+\.\s` anchored at the start:
one or more decimal digits, a dot, then a whitespace character. -/
def isOrdered (nt : List Char) : Bool :=
  let d := countLeading Char.isDigit nt
  decide (1 ≤ d) &&
  (match charAt nt d with | some c => c = '.' | none => false) &&
  (match charAt nt (d + 1) with | some c => jsWs c | none => false)

/-- Test for the regex alternative `\s*<` anchored at the start. -/
def wsThenLt (nt : List Char) : Bool :=
  match (nt.dropWhile jsWs).head? with | some c => c = '<' | none => false

/-- Test for the regex alternative `\s*$` anchored at the start (the whole
string is whitespace). -/
def allWs (nt : List Char) : Bool :=
  (nt.dropWhile jsWs).isEmpty

/-- The block-start heuristic of `_applyHardBreaks`
(`/^(#{1,6}\s|>\s|([-+*])\s|\d+\.\s|(```|~~~)|\s*<|\s*$)/`). -/
def blockStart (nt : List Char) : Bool :=
  isHeading nt || isBlockquote nt || isBullet nt || isOrdered nt ||
  laStarts nt ("```".data) || laStarts nt ("~~~".data) ||
  wsThenLt nt || allWs nt

/-- The tag names of the closing-HTML-block regex of `_applyHardBreaks`. -/
def closingTags : List (List Char) :=
  ["div", "p", "section", "article", "header", "footer", "table",
   "ul", "ol", "li", "pre", "blockquote"].map String.data

/-- Test for `/^<\/(div|p|section|article|header|footer|table|ul|ol|li|pre|blockquote)>\s*$/`. -/
def closingHtmlBlock (t : List Char) : Bool :=
  closingTags.any (fun tag =>
    match dropLead t ('<' :: '/' :: (tag ++ ['>'])) with
    | some r => r.all jsWs
    | none => false)

/-- Test for `/\s\s$/`: the string ends in two whitespace characters. -/
def endsWsWs (line : List Char) : Bool :=
  match line.reverse with
  | a :: b :: _ => jsWs a && jsWs b
  | _ => false

/-- The `input.replace(/\r\n/g, "\n")` normalization (left-to-right,
non-overlapping, like the global regex replace). -/
def crlfNormalize : List Char → List Char
  | [] => []
  | [c] => [c]
  | c :: d :: cs =>
    if c = '\r' ∧ d = '\n' then '\n' :: crlfNormalize cs
    else c :: crlfNormalize (d :: cs)

/-- JS `s.split("\n")` on char lists. -/
def splitLines : List Char → List (List Char)
  | [] => [[]]
  | c :: cs =>
    if c = '\n' then [] :: splitLines cs
    else
      match splitLines cs with
      | [] => [[c]]
      | l :: ls => (c :: l) :: ls

/-- JS `lines.join("\n")` on char lists. -/
def joinLines : List (List Char) → List Char
  | [] => []
  | [l] => l
  | l :: ls => l ++ '\n' :: joinLines ls

/-- The per-line loop of `_applyHardBreaks`, with the `code` and `mth`
fence-toggle state (named `code` / `math` in the source). -/
def hbLoop (code mth : Bool) : List (List Char) → List (List Char)
  | [] => []
  | line :: rest =>
    let t := jsTrim line
    if laStarts t ("```".data) || laStarts t ("~~~".data) then
      line :: hbLoop (!code) mth rest
    else if laStarts t ("$$".data) && !code then
      line :: hbLoop code (!mth) rest
    else if !code && !mth then
      let next := rest.headD []
      let nt := jsTrim next
      let bs := blockStart nt
      let chb := closingHtmlBlock t
      let line2 :=
        if !t.isEmpty && !nt.isEmpty && !bs && !endsWsWs line
        then line ++ [' ', ' '] else line
      if chb && !nt.isEmpty && !bs then line2 :: [] :: hbLoop code mth rest
      else line2 :: hbLoop code mth rest
    else line :: hbLoop code mth rest

/-- `_applyHardBreaks`: normalize CRLF, split into lines, run the hard-break
loop from a clean toggle state, and re-join. -/
def applyHardBreaks (input : List Char) : List Char :=
  joinLines (hbLoop false false (splitLines (crlfNormalize input)))

/-- First dollar-padding pass of `_normalizeInlineDollars`:
`line.replace(/(?<![$\s])\$(?!\$)/g, ' $')`.  The `prev` argument carries the
character preceding the current position in the original line (`none` at the
start of the line); lookbehind and lookahead are evaluated on the original
text, matching JS semantics. -/
def dollarPadL (prev : Option Char) : List Char → List Char
  | [] => []
  | c :: rest =>
    if c = '$' then
      if (match prev with | none => true | some p => !(p = '$' || jsWs p)) &&
         (match rest.head? with | some n => !(n = '$') | none => true)
      then ' ' :: '$' :: dollarPadL (some '$') rest
      else '$' :: dollarPadL (some '$') rest
    else c :: dollarPadL (some c) rest

/-- Second dollar-padding pass of `_normalizeInlineDollars`:
`line.replace(/(?<!\$)\$(?![\$\s])/g, '$ ')`. -/
def dollarPadR (prev : Option Char) : List Char → List Char
  | [] => []
  | c :: rest =>
    if c = '$' then
      if (match prev with | none => true | some p => !(p = '$')) &&
         (match rest.head? with | some n => !(n = '$' || jsWs n) | none => true)
      then '$' :: ' ' :: dollarPadR (some '$') rest
      else '$' :: dollarPadR (some '$') rest
    else c :: dollarPadR (some c) rest

/-- The per-line loop of `_normalizeInlineDollars`, with the `code` and
`blockMath` toggle state. -/
def dollarsLoop (code blockMath : Bool) : List (List Char) → List (List Char)
  | [] => []
  | line :: rest =>
    let t := jsTrim line
    if laStarts t ("```".data) || laStarts t ("~~~".data) then
      line :: dollarsLoop (!code) blockMath rest
    else if laStarts t ("$$".data) && !code then
      line :: dollarsLoop code (!blockMath) rest
    else if code || blockMath then line :: dollarsLoop code blockMath rest
    else dollarPadR none (dollarPadL none line) :: dollarsLoop code blockMath rest

/-- `_normalizeInlineDollars`. -/
def normalizeInlineDollars (input : List Char) : List Char :=
  joinLines (dollarsLoop false false (splitLines (crlfNormalize input)))

/-- Opening delimiter of the block-math regex `\\{1,2}\[` tried at the current
position: one or two backslashes followed by `[` (the greedy `{1,2}` prefers
two backslashes; when two backslashes precede, the one-backslash alternative
cannot complete, because its next character would be the second backslash,
not `[`). -/
def openSqAt : List Char → Option (List Char)
  | a :: b :: c :: r =>
    if a = '\\' ∧ b = '\\' ∧ c = '[' then some r
    else if a = '\\' ∧ b = '[' then some (c :: r)
    else none
  | [a, b] => if a = '\\' ∧ b = '[' then some [] else none
  | _ => none

/-- Closing delimiter `\\{1,2}\]` tried at the current position. -/
def closeSqAt : List Char → Option (List Char)
  | a :: b :: c :: r =>
    if a = '\\' ∧ b = '\\' ∧ c = ']' then some r
    else if a = '\\' ∧ b = ']' then some (c :: r)
    else none
  | [a, b] => if a = '\\' ∧ b = ']' then some [] else none
  | _ => none

/-- Opening delimiter `\\{1,2}\(` of the inline-math regex. -/
def openParAt : List Char → Option (List Char)
  | a :: b :: c :: r =>
    if a = '\\' ∧ b = '\\' ∧ c = '(' then some r
    else if a = '\\' ∧ b = '(' then some (c :: r)
    else none
  | [a, b] => if a = '\\' ∧ b = '(' then some [] else none
  | _ => none

/-- Closing delimiter `\\{1,2}\)` of the inline-math regex. -/
def closeParAt : List Char → Option (List Char)
  | a :: b :: c :: r =>
    if a = '\\' ∧ b = '\\' ∧ c = ')' then some r
    else if a = '\\' ∧ b = ')' then some (c :: r)
    else none
  | [a, b] => if a = '\\' ∧ b = ')' then some [] else none
  | _ => none

/-- Lazy scan for the closing `\\{1,2}\]`: the earliest position where the
closing delimiter matches ends the (non-greedy) inner group; with the `s`
flag, any character (including newlines) may belong to the inner group.
Returns the inner group and the remainder after the delimiter. -/
def scanCloseSq : List Char → Option (List Char × List Char)
  | [] => none
  | a :: rest =>
    match closeSqAt (a :: rest) with
    | some r => some ([], r)
    | none => (scanCloseSq rest).map (fun p => (a :: p.1, p.2))

/-- Lazy scan for the closing `\\{1,2}\)`: as `scanCloseSq`, but without the
`s` flag the inner `(.*?)` cannot cross a newline, so reaching `\n` before a
closing delimiter fails the match at this starting position. -/
def scanClosePar : List Char → Option (List Char × List Char)
  | [] => none
  | a :: rest =>
    match closeParAt (a :: rest) with
    | some r => some ([], r)
    | none =>
      if a = '\n' then none
      else (scanClosePar rest).map (fun p => (a :: p.1, p.2))

/-- Full attempt of `/\\{1,2}\[(.*?)\\{1,2}\]/s` at the current position. -/
def sqMatchAt (cs : List Char) : Option (List Char × List Char) :=
  match openSqAt cs with
  | some rem => scanCloseSq rem
  | none => none

/-- Full attempt of `/\\{1,2}\((.*?)\\{1,2}\)/` at the current position. -/
def parMatchAt (cs : List Char) : Option (List Char × List Char) :=
  match openParAt cs with
  | some rem => scanClosePar rem
  | none => none

/-- Replacement text `` `$$\n${inner}\n$$` `` of the block-math rewrite. -/
def mathBlockOf (inner : List Char) : List Char :=
  '$' :: '$' :: '\n' :: (inner ++ '\n' :: '$' :: '$' :: [])

/-- Replacement text `` `$${inner}$` `` of the inline-math rewrite. -/
def mathInlineOf (inner : List Char) : List Char :=
  '$' :: (inner ++ ['$'])

/-- Fueled global-replace loop for the block-math regex: at each position try
the whole pattern; on success emit the replacement and continue after the
match, otherwise emit one character and advance (JS global `replace`
semantics; no empty match is possible since the pattern needs at least two
characters).  Each step consumes at least one input character, so fuel equal
to the input length always suffices. -/
def rbGo : Nat → List Char → List Char
  | 0, cs => cs
  | _ + 1, [] => []
  | fuel + 1, a :: rest =>
    match sqMatchAt (a :: rest) with
    | some (inner, after) => mathBlockOf inner ++ rbGo fuel after
    | none => a :: rbGo fuel rest

/-- `out.replace(/\\{1,2}\[(.*?)\\{1,2}\]/gs, ...)`. -/
def replaceBlockMath (cs : List Char) : List Char :=
  rbGo cs.length cs

/-- Fueled global-replace loop for the inline-math regex. -/
def riGo : Nat → List Char → List Char
  | 0, cs => cs
  | _ + 1, [] => []
  | fuel + 1, a :: rest =>
    match parMatchAt (a :: rest) with
    | some (inner, after) => mathInlineOf inner ++ riGo fuel after
    | none => a :: riGo fuel rest

/-- `out.replace(/\\{1,2}\((.*?)\\{1,2}\)/g, ...)`. -/
def replaceInlineMath (cs : List Char) : List Char :=
  riGo cs.length cs

/-- The construction-time configuration fields that the rendering pipeline
reads (parser extension lists, sanitizer options and the raw-HTML flag are
absorbed into the abstract collaborators). -/
structure Config where
  brackets : Bool
  dollars : Bool
  respectNewlines : Bool
  twEnabled : Bool
  twStep : Nat
deriving DecidableEq, Repr

/-- `_preprocess`: when bracket-style math is disabled the input is returned
unchanged; otherwise rewrite block then inline bracketed math, then
optionally normalize single dollars and insert hard breaks. -/
def preprocess (cfg : Config) (text : List Char) : List Char :=
  if !cfg.brackets then text
  else
    let out := replaceBlockMath text
    let out := replaceInlineMath out
    let out := if cfg.dollars then normalizeInlineDollars out else out
    if cfg.respectNewlines then applyHardBreaks out else out

/-- The external collaborators of a render pass.  `parseFull` is `micromark`
with the configured extensions and the raw-HTML flag, `parseMin` is
`micromark` with the default (minimal) options used by the catch branch;
`none` models a thrown parse error.  `sanitize` is `DOMPurify.sanitize` with
the configured options (assumed total, per the spec). -/
structure Collab where
  parseFull : List Char → Option (List Char)
  parseMin : List Char → Option (List Char)
  sanitize : List Char → List Char

/-- Mutable state of one renderer instance.  `timerCount` counts pending
throttle timeouts, `twTimerCount` counts active typewriter intervals,
`listenerOn` records whether a listener is attached. -/
structure RState where
  buffer : List Char
  twQueue : List (List Char)
  timerCount : Nat
  twTimerCount : Nat
  listenerOn : Bool
deriving DecidableEq, Repr

/-- The state of a freshly constructed renderer with an `onChunk` listener. -/
def initState : RState :=
  { buffer := [], twQueue := [], timerCount := 0, twTimerCount := 0, listenerOn := true }

/-- `_schedule`: a no-op when a timeout handle is live, otherwise create one. -/
def schedule (s : RState) : RState :=
  if s.timerCount ≠ 0 then s else { s with timerCount := s.timerCount + 1 }

/-- `_startTypewriter`'s guard: a no-op when an interval handle is live,
otherwise create one. -/
def startTypewriter (s : RState) : RState :=
  if s.twTimerCount ≠ 0 then s else { s with twTimerCount := s.twTimerCount + 1 }

/-- The value computed by `_emit`: parse the preprocessed buffer (or the
forced source) with the full configuration; if that throws, re-parse the raw
buffer with minimal options; sanitize the resulting HTML.  `none` means both
parses threw, so the error escapes `_emit`. -/
def emitHtml (co : Collab) (cfg : Config) (forceHtml : Option (List Char))
    (buffer : List Char) : Option (List Char) :=
  let source := match forceHtml with | some f => f | none => preprocess cfg buffer
  match co.parseFull source with
  | some html => some (co.sanitize html)
  | none =>
    match co.parseMin buffer with
    | some html => some (co.sanitize html)
    | none => none

/-- The state/emission effect of `_emit`: the state is untouched and the
sanitized result is delivered to the listener exactly when one is attached.
(The exceptional case yields no emission.) -/
def doEmit (co : Collab) (cfg : Config) (forceHtml : Option (List Char))
    (s : RState) : RState × List (List Char) :=
  match emitHtml co cfg forceHtml s.buffer with
  | none => (s, [])
  | some safe => (s, if s.listenerOn then [safe] else [])

/-- Longest-common-prefix length, as computed by the `charCodeAt` loop in
`update`. -/
def lcpLen : List Char → List Char → Nat
  | c :: cs, d :: ds => if c = d then lcpLen cs ds + 1 else 0
  | _, _ => 0

/-- The observable operations on a renderer: the public entry points plus the
two timer-expiry events of the JS event loop. -/
inductive Op where
  | write (chunk : Option (List Char))
  | update (text : Option (List Char))
  | flush
  | clear
  | destroy
  | throttleFire
  | twTick
deriving DecidableEq, Repr

/-- One step of the renderer semantics: the new state and the list of strings
delivered to the listener during the step. -/
def step (co : Collab) (cfg : Config) (s : RState) : Op → RState × List (List Char)
  | .write chunk =>
    match chunk with
    | none => (s, [])
    | some c =>
      if c = [] then (s, [])
      else if cfg.twEnabled then
        (startTypewriter { s with twQueue := s.twQueue ++ [c] }, [])
      else (schedule { s with buffer := s.buffer ++ c }, [])
  | .update t =>
    match t with
    | none => (s, [])
    | some text =>
      if cfg.twEnabled then
        let old := s.buffer
        let i := lcpLen old text
        if old.length = 0 ∧ 0 < text.length then
          (startTypewriter { s with twQueue := s.twQueue ++ [text] }, [])
        else if i = old.length ∧ old.length < text.length then
          let delta := text.drop i
          if delta ≠ [] then
            (startTypewriter { s with twQueue := s.twQueue ++ [delta] }, [])
          else (s, [])
        else
          (schedule { s with twQueue := [], twTimerCount := 0, buffer := text }, [])
      else (schedule { s with buffer := text }, [])
  | .flush => doEmit co cfg none s
  | .clear =>
    doEmit co cfg (some []) { s with buffer := [], twQueue := [], twTimerCount := 0 }
  | .destroy =>
    ({ buffer := [], twQueue := [], timerCount := 0, twTimerCount := 0,
       listenerOn := false }, [])
  | .throttleFire =>
    if s.timerCount = 0 then (s, [])
    else doEmit co cfg none { s with timerCount := s.timerCount - 1 }
  | .twTick =>
    if s.twTimerCount = 0 then (s, [])
    else
      match s.twQueue with
      | [] => ({ s with twTimerCount := s.twTimerCount - 1 }, [])
      | current :: tl =>
        let tk := current.take cfg.twStep
        let rest := current.drop cfg.twStep
        let q := if 0 < rest.length then rest :: tl else tl
        (schedule { s with twQueue := q, buffer := s.buffer ++ tk }, [])

/-- Run a sequence of operations, collecting all listener deliveries. -/
def run (co : Collab) (cfg : Config) (s : RState) : List Op → RState × List (List Char)
  | [] => (s, [])
  | op :: ops =>
    let r := step co cfg s op
    let r2 := run co cfg r.1 ops
    (r2.1, r.2 ++ r2.2)

/-- The default configuration produced by the constructor:
`mathSyntax = { brackets: true, dollars: false }`, `respectNewlines = false`,
typewriter disabled with `step = 1`. -/
def cfgDefault : Config :=
  { brackets := true, dollars := false, respectNewlines := false,
    twEnabled := false, twStep := 1 }

/-- The default configuration with the typewriter enabled (`step = 1`). -/
def cfgTw : Config :=
  { brackets := true, dollars := false, respectNewlines := false,
    twEnabled := true, twStep := 1 }

/-- Identity collaborators: both parses succeed and return their input,
sanitization is the identity. -/
def coId : Collab :=
  { parseFull := fun s => some s, parseMin := fun s => some s,
    sanitize := fun s => s }

/-- Collaborators whose configured parse always throws while the minimal
fallback parse succeeds. -/
def coFallback : Collab :=
  { parseFull := fun _ => none, parseMin := fun s => some s,
    sanitize := fun s => s }

/-- A state holding the single chunk `"a"`, with an attached listener and no
pending timers. -/
def stA : RState :=
  { buffer := "a".data, twQueue := [], timerCount := 0, twTimerCount := 0,
    listenerOn := true }

/-- The scheduling-handle invariant of the spec: at most one pending throttle
timeout and at most one active typewriter interval. -/
def schedInv (s : RState) : Prop :=
  s.timerCount ≤ 1 ∧ s.twTimerCount ≤ 1

/-! Helper lemmas about the scheduling primitives. -/

theorem schedule_eq_max (s : RState) :
    schedule s = { s with timerCount := max s.timerCount 1 } := by
  unfold schedule
  split
  · rename_i h
    have hmax : max s.timerCount 1 = s.timerCount := by omega
    rw [hmax]
  · rename_i h
    have h0 : s.timerCount = 0 := by omega
    rw [h0]
    norm_num

theorem startTypewriter_eq_max (s : RState) :
    startTypewriter s = { s with twTimerCount := max s.twTimerCount 1 } := by
  unfold startTypewriter
  split
  · rename_i h
    have hmax : max s.twTimerCount 1 = s.twTimerCount := by omega
    rw [hmax]
  · rename_i h
    have h0 : s.twTimerCount = 0 := by omega
    rw [h0]
    norm_num

@[simp] theorem schedule_buffer (s : RState) : (schedule s).buffer = s.buffer := by
  rw [schedule_eq_max]

@[simp] theorem schedule_twQueue (s : RState) : (schedule s).twQueue = s.twQueue := by
  rw [schedule_eq_max]

@[simp] theorem schedule_twTimerCount (s : RState) :
    (schedule s).twTimerCount = s.twTimerCount := by
  rw [schedule_eq_max]

@[simp] theorem schedule_listenerOn (s : RState) :
    (schedule s).listenerOn = s.listenerOn := by
  rw [schedule_eq_max]

@[simp] theorem schedule_timerCount (s : RState) :
    (schedule s).timerCount = max s.timerCount 1 := by
  rw [schedule_eq_max]

@[simp] theorem startTypewriter_buffer (s : RState) :
    (startTypewriter s).buffer = s.buffer := by
  rw [startTypewriter_eq_max]

@[simp] theorem startTypewriter_twQueue (s : RState) :
    (startTypewriter s).twQueue = s.twQueue := by
  rw [startTypewriter_eq_max]

@[simp] theorem startTypewriter_timerCount (s : RState) :
    (startTypewriter s).timerCount = s.timerCount := by
  rw [startTypewriter_eq_max]

@[simp] theorem startTypewriter_listenerOn (s : RState) :
    (startTypewriter s).listenerOn = s.listenerOn := by
  rw [startTypewriter_eq_max]

@[simp] theorem startTypewriter_twTimerCount (s : RState) :
    (startTypewriter s).twTimerCount = max s.twTimerCount 1 := by
  rw [startTypewriter_eq_max]

@[simp] theorem doEmit_fst (co : Collab) (cfg : Config) (f : Option (List Char))
    (s : RState) : (doEmit co cfg f s).1 = s := by
  unfold doEmit
  split <;> rfl

theorem doEmit_snd_off (co : Collab) (cfg : Config) (f : Option (List Char))
    (s : RState) (h : s.listenerOn = false) : (doEmit co cfg f s).2 = [] := by
  unfold doEmit
  split
  · rfl
  · simp [h]

theorem doEmit_snd_on (co : Collab) (cfg : Config) (f : Option (List Char))
    (s : RState) (e : List Char) (h : s.listenerOn = true)
    (he : emitHtml co cfg f s.buffer = some e) : (doEmit co cfg f s).2 = [e] := by
  unfold doEmit
  rw [he, h]
  simp

@[simp] theorem run_nil (co : Collab) (cfg : Config) (s : RState) :
    run co cfg s [] = (s, []) := rfl

theorem run_cons (co : Collab) (cfg : Config) (s : RState) (op : Op) (ops : List Op) :
    run co cfg s (op :: ops) =
      ((run co cfg (step co cfg s op).1 ops).1,
       (step co cfg s op).2 ++ (run co cfg (step co cfg s op).1 ops).2) := rfl

theorem run_append (co : Collab) (cfg : Config) (s : RState) (l1 l2 : List Op) :
    run co cfg s (l1 ++ l2) =
      ((run co cfg (run co cfg s l1).1 l2).1,
       (run co cfg s l1).2 ++ (run co cfg (run co cfg s l1).1 l2).2) := by
  induction l1 generalizing s with
  | nil => simp
  | cons op ops ih =>
    simp only [List.cons_append, run_cons, ih]
    simp [List.append_assoc]

/-- C10: when bracket-style math is disabled, preprocessing is the identity
regardless of the dollar-normalization and hard-break flags. -/
theorem C10_brackets_gate_preprocess (cfg : Config) (text : List Char)
    (h : cfg.brackets = false) : preprocess cfg text = text := by
  simp [preprocess, h]

theorem C10_witness :
    (↑(Config.mk false true true false 1).brackets = false) ∧
    preprocess (Config.mk false true true false 1) ("a\nb \\(x\\)".data)
      = "a\nb \\(x\\)".data :=
  ⟨rfl, C10_brackets_gate_preprocess (Config.mk false true true false 1) _ rfl⟩

/-- C7: if the configured parse of the preprocessed buffer throws, the render
pass falls back to parsing the raw, unprocessed buffer with the minimal
options, and (whenever the minimal parse returns) the render pass produces a
sanitized result instead of propagating the error; in particular with a
total minimal parser every render pass produces a sanitized result. -/
theorem C7_parse_fallback :
    (∀ (co : Collab) (cfg : Config) (buffer h : List Char),
       co.parseFull (preprocess cfg buffer) = none →
       co.parseMin buffer = some h →
       emitHtml co cfg none buffer = some (co.sanitize h))
    ∧ (∀ (co : Collab) (cfg : Config) (forceHtml : Option (List Char))
         (buffer : List Char),
       (∀ t, (co.parseMin t).isSome = true) →
       (emitHtml co cfg forceHtml buffer).isSome = true) := by
  constructor
  · intro co cfg buffer h h1 h2
    simp [emitHtml, h1, h2]
  · intro co cfg forceHtml buffer htot
    unfold emitHtml
    cases hf : co.parseFull (match forceHtml with
      | some f => f
      | none => preprocess cfg buffer) with
    | some html => simp [hf]
    | none =>
      cases hm : co.parseMin buffer with
      | some html => simp [hf]
      | none =>
        have := htot buffer
        rw [hm] at this
        simp at this

theorem C7_witness :
    coFallback.parseFull (preprocess cfgDefault ("x".data)) = none ∧
    emitHtml coFallback cfgDefault none ("x".data)
      = some (coFallback.sanitize ("x".data)) :=
  ⟨rfl, C7_parse_fallback.1 coFallback cfgDefault ("x".data) ("x".data) rfl rfl⟩

/-- C8, counterexample: the claim asserts that `update` with the empty string
is a silent no-op that leaves the Buffer unchanged and schedules no render.
On the code, `update('')` passes the `typeof` guard (only `write` rejects
falsy strings), so on a state whose buffer holds `"a"` it replaces the
Buffer with the empty string and schedules a render. -/
theorem C8_counterexample_update_empty :
    (step coId cfgDefault stA (Op.update (some []))).1.buffer = []
    ∧ (step coId cfgDefault stA (Op.update (some []))).1.timerCount = 1
    ∧ stA.buffer ≠ []
    ∧ (step coId cfgDefault stA (Op.update (some []))).2 = [] := by
  decide

/-- C8 (amended): `write` is a silent no-op on a non-string or empty-string
argument, and `update` is a silent no-op on a non-string argument; but
`update` with the empty string is a full-text replacement: it sets the
Buffer to the empty string and schedules a render. -/
theorem C8_invalid_input_amended (co : Collab) (cfg : Config) (s : RState) :
    step co cfg s (.write none) = (s, [])
    ∧ step co cfg s (.write (some [])) = (s, [])
    ∧ step co cfg s (.update none) = (s, [])
    ∧ (cfg.twEnabled = false →
        step co cfg s (.update (some [])) = (schedule { s with buffer := [] }, [])) := by
  refine ⟨rfl, by simp [step], rfl, ?_⟩
  intro h
  simp [step, h]

theorem C8_witness :
    step coId cfgDefault stA (Op.write none) = (stA, [])
    ∧ step coId cfgDefault stA (Op.write (some [])) = (stA, [])
    ∧ step coId cfgDefault stA (Op.update none) = (stA, [])
    ∧ step coId cfgDefault stA (Op.update (some []))
        = (schedule { stA with buffer := [] }, []) :=
  ⟨(C8_invalid_input_amended coId cfgDefault stA).1,
   (C8_invalid_input_amended coId cfgDefault stA).2.1,
   (C8_invalid_input_amended coId cfgDefault stA).2.2.1,
   (C8_invalid_input_amended coId cfgDefault stA).2.2.2 rfl⟩

/-- C1, counterexample: the claim asserts the listener is never invoked twice
in a row with an identical string (other than by `clear`).  On the code,
`_emit` invokes the listener unconditionally — it never compares the
sanitized result with `prevHtml` (that comparison lives only inside the
DOM-writing listener installed by `renderTo`) — so two consecutive `flush`
calls with buffer `"a"` and no intervening `write` deliver the identical
non-empty string twice. -/
theorem C1_counterexample_double_flush :
    (run coId cfgDefault stA [Op.flush, Op.flush]).2 = ["a".data, "a".data]
    ∧ "a".data ≠ ([] : List Char) := by
  decide

/-- C1 (amended): a render pass invokes the attached listener with the
sanitized result unconditionally, regardless of the last emitted result; in
particular a second `flush()` with no intervening `write()` invokes the
listener a second time with the identical string, and `clear()` always
emits the sanitized render of the empty source. -/
theorem C1_emit_unconditional (co : Collab) (cfg : Config) (s : RState)
    (e e2 : List Char) (hl : s.listenerOn = true)
    (he : emitHtml co cfg none s.buffer = some e)
    (he2 : emitHtml co cfg (some []) [] = some e2) :
    (run co cfg s [Op.flush, Op.flush]).2 = [e, e]
    ∧ (step co cfg s Op.clear).2 = [e2] := by
  constructor
  · have h1 : step co cfg s Op.flush = (s, [e]) := by
      show doEmit co cfg none s = (s, [e])
      unfold doEmit
      rw [he, hl]
      simp
    simp [run_cons, h1]
  · show (doEmit co cfg (some []) { s with buffer := [], twQueue := [], twTimerCount := 0 }).2 = [e2]
    unfold doEmit
    rw [show ({ s with buffer := [], twQueue := [], twTimerCount := 0 } : RState).buffer = [] from rfl, he2]
    simp [hl]

theorem C1_witness :
    stA.listenerOn = true
    ∧ (run coId cfgDefault stA [Op.flush, Op.flush]).2 = ["a".data, "a".data]
    ∧ (step coId cfgDefault stA Op.clear).2 = [([] : List Char)] :=
  ⟨rfl,
   (C1_emit_unconditional coId cfgDefault stA ("a".data) [] rfl rfl rfl).1,
   (C1_emit_unconditional coId cfgDefault stA ("a".data) [] rfl rfl rfl).2⟩

/-- Every operation preserves a detached listener, and with a detached
listener no operation delivers anything. -/
theorem step_listener_off (co : Collab) (cfg : Config) (s : RState) (op : Op)
    (h : s.listenerOn = false) :
    (step co cfg s op).1.listenerOn = false ∧ (step co cfg s op).2 = [] := by
  cases op with
  | write chunk =>
    cases chunk with
    | none => exact ⟨h, rfl⟩
    | some c =>
      by_cases hc : c = []
      · simp [step, hc, h]
      · by_cases htw : cfg.twEnabled = true
        · simp [step, hc, htw, h]
        · simp [step, hc, htw, h]
  | update t =>
    cases t with
    | none => exact ⟨h, rfl⟩
    | some text =>
      by_cases htw : cfg.twEnabled = true
      · simp only [step, htw, if_true]
        split
        · simp [h]
        · split
          · split
            · simp [h]
            · simp [h]
          · simp [h]
      · simp [step, htw, h]
  | flush =>
    refine ⟨by simp [step, h], ?_⟩
    exact doEmit_snd_off co cfg none s h
  | clear =>
    refine ⟨by simp [step, h], ?_⟩
    exact doEmit_snd_off co cfg (some []) _ h
  | destroy => exact ⟨rfl, rfl⟩
  | throttleFire =>
    by_cases ht : s.timerCount = 0
    · simp [step, ht, h]
    · refine ⟨by simp [step, ht, h], ?_⟩
      simp only [step, ht, if_false]
      exact doEmit_snd_off co cfg none _ h
  | twTick =>
    by_cases ht : s.twTimerCount = 0
    · simp [step, ht, h]
    · cases hq : s.twQueue with
      | nil => simp [step, ht, hq, h]
      | cons cur tl => simp [step, ht, hq, h]

/-- With a detached listener, no operation sequence ever delivers anything,
and the listener stays detached. -/
theorem run_listener_off (co : Collab) (cfg : Config) :
    ∀ (ops : List Op) (s : RState), s.listenerOn = false →
      (run co cfg s ops).2 = [] ∧ (run co cfg s ops).1.listenerOn = false := by
  intro ops
  induction ops with
  | nil => intro s h; exact ⟨rfl, h⟩
  | cons op rest ih =>
    intro s h
    have hstep := step_listener_off co cfg s op h
    have hrest := ih (step co cfg s op).1 hstep.1
    rw [run_cons]
    exact ⟨by rw [hstep.2, hrest.1]; rfl, hrest.2⟩

/-- C9: `destroy()` empties the Buffer and the Pending Queue, cancels the
throttle timeout and the typewriter interval, and detaches the listener;
after `destroy()` no operation sequence (in particular no sequence of
`write` calls and timer expiries) ever delivers anything to a listener, and
a fire of the (now canceled) throttle timer is a no-op. -/
theorem C9_destroy :
    (∀ (co : Collab) (cfg : Config) (s : RState),
      step co cfg s Op.destroy =
        ({ buffer := [], twQueue := [], timerCount := 0, twTimerCount := 0,
           listenerOn := false }, []))
    ∧ (∀ (co : Collab) (cfg : Config) (s : RState) (ops : List Op),
        s.listenerOn = false → (run co cfg s ops).2 = [])
    ∧ (∀ (co : Collab) (cfg : Config) (s : RState) (ops : List Op),
        (run co cfg (step co cfg s Op.destroy).1 ops).2 = [])
    ∧ (∀ (co : Collab) (cfg : Config) (s : RState),
        s.timerCount = 0 → step co cfg s Op.throttleFire = (s, [])) := by
  refine ⟨fun co cfg s => rfl, ?_, ?_, ?_⟩
  · intro co cfg s ops h
    exact (run_listener_off co cfg ops s h).1
  · intro co cfg s ops
    exact (run_listener_off co cfg ops _ rfl).1
  · intro co cfg s h
    simp [step, h]

theorem C9_witness :
    (run coId cfgDefault (step coId cfgDefault stA Op.destroy).1
        [Op.write (some ("a".data)), Op.throttleFire, Op.flush]).2 = []
    ∧ step coId cfgDefault (step coId cfgDefault stA Op.destroy).1
        Op.throttleFire = ((step coId cfgDefault stA Op.destroy).1, []) :=
  ⟨C9_destroy.2.2.1 coId cfgDefault stA
      [Op.write (some ("a".data)), Op.throttleFire, Op.flush],
   C9_destroy.2.2.2 coId cfgDefault (step coId cfgDefault stA Op.destroy).1
      (by decide)⟩

/-- Unfolding of the `update` branch of the semantics (definitional). -/
theorem step_update_eq (co : Collab) (cfg : Config) (s : RState) (text : List Char) :
    step co cfg s (Op.update (some text)) =
      (if cfg.twEnabled then
        if s.buffer.length = 0 ∧ 0 < text.length then
          (startTypewriter { s with twQueue := s.twQueue ++ [text] }, [])
        else if lcpLen s.buffer text = s.buffer.length ∧ s.buffer.length < text.length then
          (if text.drop (lcpLen s.buffer text) ≠ [] then
            (startTypewriter
              { s with twQueue := s.twQueue ++ [text.drop (lcpLen s.buffer text)] }, [])
          else (s, []))
        else (schedule { s with twQueue := [], twTimerCount := 0, buffer := text }, [])
      else (schedule { s with buffer := text }, [])) := rfl

/-- C3: in typewriter mode, `update(text)` queues the whole new text when the
old buffer was empty and the new text non-empty; queues exactly the suffix
beyond the common prefix (whose length is the difference of lengths) and
leaves the revealed buffer unchanged when the common prefix covers the old
buffer and the new text is strictly longer; and otherwise empties the
typewriter queue, cancels the ticker, sets the buffer to the new text and
schedules a render. -/
theorem C3_update_typewriter (co : Collab) (cfg : Config) (s : RState)
    (text : List Char) (htw : cfg.twEnabled = true) :
    ((s.buffer = [] → text ≠ [] →
       (step co cfg s (Op.update (some text))).1.twQueue = s.twQueue ++ [text]
       ∧ (step co cfg s (Op.update (some text))).1.buffer = s.buffer
       ∧ (step co cfg s (Op.update (some text))).1.twTimerCount ≠ 0
       ∧ (step co cfg s (Op.update (some text))).2 = []))
    ∧ (lcpLen s.buffer text = s.buffer.length → s.buffer.length < text.length →
       (step co cfg s (Op.update (some text))).1.twQueue
           = s.twQueue ++ [text.drop s.buffer.length]
       ∧ (text.drop s.buffer.length).length = text.length - s.buffer.length
       ∧ (step co cfg s (Op.update (some text))).1.buffer = s.buffer
       ∧ (step co cfg s (Op.update (some text))).1.twTimerCount ≠ 0
       ∧ (step co cfg s (Op.update (some text))).2 = [])
    ∧ (¬(s.buffer.length = 0 ∧ 0 < text.length) →
       ¬(lcpLen s.buffer text = s.buffer.length ∧ s.buffer.length < text.length) →
       (step co cfg s (Op.update (some text))).1.twQueue = []
       ∧ (step co cfg s (Op.update (some text))).1.twTimerCount = 0
       ∧ (step co cfg s (Op.update (some text))).1.buffer = text
       ∧ (step co cfg s (Op.update (some text))).1.timerCount ≠ 0
       ∧ (step co cfg s (Op.update (some text))).2 = []) := by
  have htwP : cfg.twEnabled = true := htw
  refine ⟨?_, ?_, ?_⟩
  · intro hb ht
    have hcond : s.buffer.length = 0 ∧ 0 < text.length := by
      refine ⟨by rw [hb]; rfl, ?_⟩
      cases text with
      | nil => exact absurd rfl ht
      | cons c cs => simp
    rw [step_update_eq, if_pos htwP, if_pos hcond]
    refine ⟨by simp, by simp, by simp, rfl⟩
  · intro hlcp hlen
    have hdlen : (text.drop s.buffer.length).length = text.length - s.buffer.length := by
      simp [List.length_drop]
    by_cases hb : s.buffer.length = 0
    · have hcond : s.buffer.length = 0 ∧ 0 < text.length := ⟨hb, by omega⟩
      rw [step_update_eq, if_pos htwP, if_pos hcond]
      refine ⟨?_, hdlen, by simp, by simp, rfl⟩
      simp [hb]
    · have hcond : ¬(s.buffer.length = 0 ∧ 0 < text.length) := fun hx => hb hx.1
      have happ : lcpLen s.buffer text = s.buffer.length ∧
          s.buffer.length < text.length := ⟨hlcp, hlen⟩
      have hdelta : text.drop (lcpLen s.buffer text) ≠ [] := by
        rw [hlcp]
        intro hx
        have h2 := hdlen
        rw [hx] at h2
        simp at h2
        omega
      rw [step_update_eq, if_pos htwP, if_neg hcond, if_pos happ, if_pos hdelta]
      refine ⟨by simp [hlcp], hdlen, by simp, by simp, rfl⟩
  · intro h1 h2
    rw [step_update_eq, if_pos htwP, if_neg h1, if_neg h2]
    refine ⟨by simp, by simp, by simp, by simp, rfl⟩

theorem C3_witness :
    ((step coId cfgTw (RState.mk [] [] 0 0 true) (Op.update (some ("hi".data)))).1.twQueue
        = [("hi".data)])
    ∧ ((step coId cfgTw (RState.mk ("ab".data) [] 0 1 true)
          (Op.update (some ("abcd".data)))).1.twQueue = [("cd".data)])
    ∧ ((("abcd".data).drop (("ab".data).length)).length
        = ("abcd".data).length - ("ab".data).length)
    ∧ ((step coId cfgTw (RState.mk ("ab".data) [("x".data)] 0 1 true)
          (Op.update (some ("ax".data)))).1.twQueue = [])
    ∧ ((step coId cfgTw (RState.mk ("ab".data) [("x".data)] 0 1 true)
          (Op.update (some ("ax".data)))).1.buffer = "ax".data) := by
  refine ⟨?_, ?_, ?_, ?_, ?_⟩
  · exact ((C3_update_typewriter coId cfgTw (RState.mk [] [] 0 0 true)
      ("hi".data) rfl).1 rfl (by decide)).1
  · exact ((C3_update_typewriter coId cfgTw (RState.mk ("ab".data) [] 0 1 true)
      ("abcd".data) rfl).2.1 (by decide) (by decide)).1
  · exact ((C3_update_typewriter coId cfgTw (RState.mk ("ab".data) [] 0 1 true)
      ("abcd".data) rfl).2.1 (by decide) (by decide)).2.1
  · exact ((C3_update_typewriter coId cfgTw (RState.mk ("ab".data) [("x".data)] 0 1 true)
      ("ax".data) rfl).2.2 (by decide) (by decide)).1
  · exact ((C3_update_typewriter coId cfgTw (RState.mk ("ab".data) [("x".data)] 0 1 true)
      ("ax".data) rfl).2.2 (by decide) (by decide)).2.2.1

/-- A timer expiry with exactly one pending timeout clears the pending state
and performs one render pass on the buffer as it is at expiry time. -/
theorem fire_emit (co : Collab) (cfg : Config) (s : RState) (e : List Char)
    (h1 : s.timerCount = 1) (hl : s.listenerOn = true)
    (he : emitHtml co cfg none s.buffer = some e) :
    step co cfg s Op.throttleFire = ({ s with timerCount := 0 }, [e]) := by
  have hne : ¬ s.timerCount = 0 := by omega
  show (if s.timerCount = 0 then (s, [])
    else doEmit co cfg none { s with timerCount := s.timerCount - 1 }) = _
  rw [if_neg hne]
  unfold doEmit
  rw [show ({ s with timerCount := s.timerCount - 1 } : RState).buffer = s.buffer from rfl, he]
  simp [hl, h1]

/-- Every operation preserves the scheduling-handle invariant. -/
theorem step_schedInv (co : Collab) (cfg : Config) (s : RState) (op : Op)
    (h : schedInv s) : schedInv (step co cfg s op).1 := by
  obtain ⟨h1, h2⟩ := h
  cases op with
  | write chunk =>
    cases chunk with
    | none => exact ⟨h1, h2⟩
    | some c =>
      by_cases hc : c = []
      · simp [step, hc]; exact ⟨h1, h2⟩
      · by_cases htw : cfg.twEnabled = true
        · simp [step, hc, htw, schedInv]; omega
        · simp [step, hc, htw, schedInv]; omega
  | update t =>
    cases t with
    | none => exact ⟨h1, h2⟩
    | some text =>
      by_cases htw : cfg.twEnabled = true
      · rw [step_update_eq, if_pos htw]
        split
        · simp [schedInv]; omega
        · split
          · split
            · simp [schedInv]; omega
            · exact ⟨h1, h2⟩
          · simp [schedInv]; omega
      · have htw2 : ¬ cfg.twEnabled = true := htw
        rw [step_update_eq, if_neg htw2]
        simp [schedInv]; omega
  | flush =>
    show schedInv (doEmit co cfg none s).1
    rw [doEmit_fst]
    exact ⟨h1, h2⟩
  | clear =>
    show schedInv (doEmit co cfg (some [])
      { s with buffer := [], twQueue := [], twTimerCount := 0 }).1
    rw [doEmit_fst]
    refine ⟨h1, ?_⟩
    show (0 : Nat) ≤ 1
    omega
  | destroy => exact ⟨by simp [step], by simp [step]⟩
  | throttleFire =>
    by_cases ht : s.timerCount = 0
    · simp [step, ht]; exact ⟨h1, h2⟩
    · simp [step, ht, schedInv]; omega
  | twTick =>
    by_cases ht : s.twTimerCount = 0
    · simp [step, ht]; exact ⟨h1, h2⟩
    · cases hq : s.twQueue with
      | nil => simp [step, ht, hq, schedInv]; omega
      | cons cur tl => simp [step, ht, hq, schedInv]; omega

/-- The scheduling-handle invariant holds along every run from a given
state. -/
theorem run_schedInv (co : Collab) (cfg : Config) :
    ∀ (ops : List Op) (s : RState), schedInv s → schedInv (run co cfg s ops).1 := by
  intro ops
  induction ops with
  | nil => intro s h; exact h
  | cons op rest ih =>
    intro s h
    rw [run_cons]
    exact ih _ (step_schedInv co cfg s op h)

/-- Effect of a burst of non-empty `write` calls in non-typewriter mode:
chunks accumulate in the buffer, at most one throttle timeout is created,
and nothing is emitted. -/
theorem run_writes (co : Collab) (cfg : Config) (htw : cfg.twEnabled = false) :
    ∀ (chunks : List (List Char)) (s : RState), chunks ≠ [] →
      (∀ c ∈ chunks, c ≠ []) →
      run co cfg s (chunks.map (fun c => Op.write (some c))) =
        ({ s with buffer := s.buffer ++ chunks.flatten,
                  timerCount := max s.timerCount 1 }, []) := by
  intro chunks
  induction chunks with
  | nil => intro s h; exact absurd rfl h
  | cons c rest ih =>
    intro s _ hne
    have hc : c ≠ [] := hne c (by simp)
    have hstep : step co cfg s (Op.write (some c)) =
        ({ s with buffer := s.buffer ++ c, timerCount := max s.timerCount 1 }, []) := by
      show (if c = [] then (s, [])
        else if cfg.twEnabled then
          (startTypewriter { s with twQueue := s.twQueue ++ [c] }, [])
        else (schedule { s with buffer := s.buffer ++ c }, [])) = _
      rw [if_neg hc, if_neg (by rw [htw]; exact Bool.false_ne_true)]
      rw [schedule_eq_max]
    cases rest with
    | nil =>
      rw [List.map_cons, List.map_nil, run_cons, hstep]
      simp
    | cons c2 rest2 =>
      rw [List.map_cons, run_cons, hstep]
      rw [ih _ (by simp) (fun x hx => hne x (by simp [hx]))]
      simp [List.append_assoc]

/-- C2: scheduling-handle bounds and throttle coalescing.  At most one
pending throttle timeout and one active typewriter interval exist in any
state reachable by the semantics; a schedule request while a timeout is
pending is a no-op; a timer expiry clears the pending state and performs
exactly one render pass reading the buffer as it is at expiry time; and a
burst of N non-empty writes in one interval followed by the single timer
expiry yields exactly one emission, reflecting the concatenation of all N
chunks. -/
theorem C2_throttle_scheduler :
    (schedInv initState)
    ∧ (∀ (co : Collab) (cfg : Config) (s : RState) (op : Op),
        schedInv s → schedInv (step co cfg s op).1)
    ∧ (∀ (co : Collab) (cfg : Config) (ops : List Op),
        schedInv (run co cfg initState ops).1)
    ∧ (∀ (s : RState), s.timerCount ≠ 0 → schedule s = s)
    ∧ (∀ (co : Collab) (cfg : Config) (s : RState) (e : List Char),
        s.timerCount = 1 → s.listenerOn = true →
        emitHtml co cfg none s.buffer = some e →
        step co cfg s Op.throttleFire = ({ s with timerCount := 0 }, [e]))
    ∧ (∀ (co : Collab) (cfg : Config) (s : RState) (chunks : List (List Char))
         (e : List Char),
        cfg.twEnabled = false → s.timerCount = 0 → chunks ≠ [] →
        (∀ c ∈ chunks, c ≠ []) → s.listenerOn = true →
        emitHtml co cfg none (s.buffer ++ chunks.flatten) = some e →
        (run co cfg s (chunks.map (fun c => Op.write (some c)) ++ [Op.throttleFire])).2
          = [e]
        ∧ (run co cfg s
            (chunks.map (fun c => Op.write (some c)) ++ [Op.throttleFire])).1.buffer
          = s.buffer ++ chunks.flatten) := by
  refine ⟨⟨by decide, by decide⟩, step_schedInv, ?_, ?_, fire_emit, ?_⟩
  · intro co cfg ops
    exact run_schedInv co cfg ops initState ⟨by decide, by decide⟩
  · intro s h
    unfold schedule
    rw [if_pos h]
  · intro co cfg s chunks e htw ht hchunks hne hl he
    have hmax : max s.timerCount 1 = 1 := by omega
    have hfire := fire_emit co cfg
      ({ s with buffer := s.buffer ++ chunks.flatten, timerCount := max s.timerCount 1 })
      e (by simp [hmax]) hl he
    rw [run_append, run_writes co cfg htw chunks s hchunks hne]
    simp [run_cons, hfire]

theorem C2_witness :
    schedInv (step coId cfgDefault stA Op.flush).1
    ∧ schedule (RState.mk [] [] 1 0 true) = RState.mk [] [] 1 0 true
    ∧ step coId cfgDefault (RState.mk ("a".data) [] 1 0 true) Op.throttleFire
        = (RState.mk ("a".data) [] 0 0 true, ["a".data])
    ∧ (run coId cfgDefault initState
        ([("a".data), ("b".data)].map (fun c => Op.write (some c)) ++ [Op.throttleFire])).2
        = ["ab".data] := by
  refine ⟨?_, ?_, ?_, ?_⟩
  · exact C2_throttle_scheduler.2.1 coId cfgDefault stA Op.flush ⟨by decide, by decide⟩
  · exact C2_throttle_scheduler.2.2.2.1 (RState.mk [] [] 1 0 true) (by decide)
  · exact C2_throttle_scheduler.2.2.2.2.1 coId cfgDefault
      (RState.mk ("a".data) [] 1 0 true) ("a".data) rfl rfl (by decide)
  · exact (C2_throttle_scheduler.2.2.2.2.2 coId cfgDefault initState
      [("a".data), ("b".data)] ("ab".data) rfl rfl (by decide) (by decide) rfl
      (by decide)).1

/-- Unfolding of the typewriter-tick branch of the semantics (definitional). -/
theorem step_tick_eq (co : Collab) (cfg : Config) (s : RState) :
    step co cfg s Op.twTick =
      (if s.twTimerCount = 0 then (s, [])
       else match s.twQueue with
         | [] => ({ s with twTimerCount := s.twTimerCount - 1 }, [])
         | current :: tl =>
           (schedule { s with
              twQueue := if 0 < (current.drop cfg.twStep).length
                         then current.drop cfg.twStep :: tl else tl,
              buffer := s.buffer ++ current.take cfg.twStep }, [])) := rfl

/-- A tick with a non-empty queue transfers a `step`-sized chunk prefix into
the buffer and requests a throttled render. -/
theorem tick_nonempty (co : Collab) (cfg : Config) (s : RState) (h : List Char)
    (tl : List (List Char)) (ht : ¬ s.twTimerCount = 0) (hq : s.twQueue = h :: tl) :
    step co cfg s Op.twTick =
      (schedule { s with
          twQueue := if 0 < (h.drop cfg.twStep).length
                     then h.drop cfg.twStep :: tl else tl,
          buffer := s.buffer ++ h.take cfg.twStep }, []) := by
  rw [step_tick_eq, if_neg ht, hq]

/-- With `step = 1`, running `k` ticks from a state whose queue holds the
single chunk `w` reveals exactly the first `k` characters of `w`. -/
theorem reveal_aux (co : Collab) (cfg : Config) (hone : cfg.twStep = 1) :
    ∀ (k : Nat) (w : List Char) (s : RState), w ≠ [] → s.twTimerCount ≠ 0 →
      s.twQueue = [w] → k ≤ w.length →
      (run co cfg s (List.replicate k Op.twTick)).1 =
        { s with buffer := s.buffer ++ w.take k,
                 twQueue := if k < w.length then [w.drop k] else [],
                 timerCount := if k = 0 then s.timerCount else max s.timerCount 1 }
      ∧ (run co cfg s (List.replicate k Op.twTick)).2 = [] := by
  intro k
  induction k with
  | zero =>
    intro w s hw ht hq hk
    refine ⟨?_, rfl⟩
    have hlen : 0 < w.length := List.length_pos.mpr hw
    simp [hq.symm, hlen]
  | succ n ih =>
    intro w s hw ht hq hk
    rw [List.replicate_succ, run_cons, tick_nonempty co cfg s w [] ht hq]
    cases w with
    | nil => exact absurd rfl hw
    | cons c w2 =>
      rw [hone]
      simp only [List.drop_succ_cons, List.drop_zero, List.take_succ_cons,
        List.take_zero]
      by_cases hw2 : w2 = []
      · subst hw2
        have hn : n = 0 := by
          simp at hk
          omega
        subst hn
        simp [schedule_eq_max]
      · have hpos : 0 < w2.length := List.length_pos.mpr hw2
        rw [if_pos hpos]
        have hk2 : n ≤ w2.length := by
          simp at hk
          omega
        have hrec := ih w2
          (schedule { s with twQueue := [w2], buffer := s.buffer ++ [c] })
          hw2 (by simp [ht]) (by simp) hk2
        refine ⟨?_, by simp [hrec.2]⟩
        rw [hrec.1]
        simp only [schedule_eq_max]
        have hmax : max (max s.timerCount 1) 1 = max s.timerCount 1 := by omega
        by_cases hn : n = 0
        · subst hn
          simp [hpos]
        · have hlt : (n < w2.length) = (n + 1 < w2.length + 1) := by
            simp
          simp only [if_neg hn, if_neg (by omega : ¬ n + 1 = 0), hmax]
          simp [List.append_assoc, Nat.succ_lt_succ_iff]

/-- C4: each typewriter tick with a non-empty queue moves exactly
`min(step, |head|)` characters from the front of the head chunk onto the
buffer (preserving `buffer ++ queue`), drops the head chunk when fully
consumed, and requests a throttled render; a tick with an empty queue stops
the ticker; and enqueuing a chunk of length `n` with `step = 1` reveals one
additional character per tick, the buffer holding the full chunk after `n`
ticks with an empty queue. -/
theorem C4_typewriter_tick :
    (∀ (co : Collab) (cfg : Config) (s : RState) (h : List Char)
       (tl : List (List Char)), s.twTimerCount ≠ 0 → s.twQueue = h :: tl →
       (step co cfg s Op.twTick).1.buffer = s.buffer ++ h.take cfg.twStep
       ∧ (step co cfg s Op.twTick).1.twQueue
           = (if 0 < (h.drop cfg.twStep).length then h.drop cfg.twStep :: tl else tl)
       ∧ (h.take cfg.twStep).length = min cfg.twStep h.length
       ∧ (step co cfg s Op.twTick).1.buffer ++ (step co cfg s Op.twTick).1.twQueue.flatten
           = s.buffer ++ s.twQueue.flatten
       ∧ (step co cfg s Op.twTick).1.timerCount ≠ 0
       ∧ (step co cfg s Op.twTick).2 = [])
    ∧ (∀ (co : Collab) (cfg : Config) (s : RState),
        s.twTimerCount ≠ 0 → s.twQueue = [] →
        step co cfg s Op.twTick = ({ s with twTimerCount := s.twTimerCount - 1 }, []))
    ∧ (∀ (co : Collab) (cfg : Config) (s : RState) (w : List Char),
        cfg.twEnabled = true → cfg.twStep = 1 → w ≠ [] →
        s.twQueue = [] → s.twTimerCount = 0 →
        ((run co cfg s (Op.write (some w) :: List.replicate w.length Op.twTick)).1.buffer
           = s.buffer ++ w
        ∧ (run co cfg s (Op.write (some w) :: List.replicate w.length Op.twTick)).1.twQueue
           = []
        ∧ (∀ k, k ≤ w.length →
            (run co cfg s (Op.write (some w) :: List.replicate k Op.twTick)).1.buffer
              = s.buffer ++ w.take k))) := by
  refine ⟨?_, ?_, ?_⟩
  · intro co cfg s h tl ht hq
    have hstep := tick_nonempty co cfg s h tl ht hq
    refine ⟨by rw [hstep]; simp, by rw [hstep]; simp, by simp [List.length_take], ?_,
      by rw [hstep]; simp, by rw [hstep]⟩
    rw [hstep, hq]
    simp only [schedule_buffer, schedule_twQueue]
    by_cases hd : 0 < (h.drop cfg.twStep).length
    · rw [if_pos hd]
      simp only [List.flatten_cons]
      rw [List.append_assoc, ← List.append_assoc (h.take cfg.twStep),
        List.take_append_drop]
    · rw [if_neg hd]
      have hdrop : h.drop cfg.twStep = [] := by
        rw [← List.length_eq_zero]
        omega
      have htake : h.take cfg.twStep = h := by
        have hx := List.take_append_drop cfg.twStep h
        rw [hdrop, List.append_nil] at hx
        exact hx
      rw [htake, List.flatten_cons, List.append_assoc]
  · intro co cfg s ht hq
    rw [step_tick_eq, if_neg ht, hq]
  · intro co cfg s w htw hone hw hq ht
    have hwrite : step co cfg s (Op.write (some w)) =
        ({ s with twQueue := [w], twTimerCount := max s.twTimerCount 1 }, []) := by
      show (if w = [] then (s, [])
        else if cfg.twEnabled then
          (startTypewriter { s with twQueue := s.twQueue ++ [w] }, [])
        else (schedule { s with buffer := s.buffer ++ w }, [])) = _
      rw [if_neg hw, if_pos htw, startTypewriter_eq_max, hq]
      simp
    have ht1 : ({ s with twQueue := [w], twTimerCount := max s.twTimerCount 1 } : RState).twTimerCount ≠ 0 := by
      simp
    refine ⟨?_, ?_, ?_⟩
    · rw [run_cons, hwrite]
      have hrec := (reveal_aux co cfg hone w.length w _ hw ht1 rfl le_rfl).1
      rw [hrec]
      simp
    · rw [run_cons, hwrite]
      have hrec := (reveal_aux co cfg hone w.length w _ hw ht1 rfl le_rfl).1
      rw [hrec]
      simp
    · intro k hk
      rw [run_cons, hwrite]
      have hrec := (reveal_aux co cfg hone k w _ hw ht1 rfl hk).1
      rw [hrec]

theorem C4_witness :
    ((step coId cfgTw (RState.mk ("h".data) [("ello".data)] 0 1 true) Op.twTick).1.buffer
       = "he".data)
    ∧ ((step coId cfgTw (RState.mk ("h".data) [("ello".data)] 0 1 true) Op.twTick).1.twQueue
       = [("llo".data)])
    ∧ (step coId cfgTw (RState.mk ("hello".data) [] 0 1 true) Op.twTick
       = (RState.mk ("hello".data) [] 0 0 true, []))
    ∧ ((run coId cfgTw (RState.mk [] [] 0 0 true)
          (Op.write (some ("hello".data)) :: List.replicate 5 Op.twTick)).1.buffer
       = "hello".data)
    ∧ ((run coId cfgTw (RState.mk [] [] 0 0 true)
          (Op.write (some ("hello".data)) :: List.replicate 2 Op.twTick)).1.buffer
       = "he".data) := by
  refine ⟨?_, ?_, ?_, ?_, ?_⟩
  · have h := (C4_typewriter_tick.1 coId cfgTw (RState.mk ("h".data) [("ello".data)] 0 1 true)
      ("ello".data) [] (by decide) rfl).1
    rw [h]
    decide
  · have h := (C4_typewriter_tick.1 coId cfgTw (RState.mk ("h".data) [("ello".data)] 0 1 true)
      ("ello".data) [] (by decide) rfl).2.1
    rw [h]
    decide
  · exact C4_typewriter_tick.2.1 coId cfgTw (RState.mk ("hello".data) [] 0 1 true)
      (by decide) rfl
  · have h := (C4_typewriter_tick.2.2 coId cfgTw (RState.mk [] [] 0 0 true)
      ("hello".data) rfl rfl (by decide) rfl rfl).1
    rw [show ("hello".data).length = 5 from rfl] at h
    rw [h]
    decide
  · have h := (C4_typewriter_tick.2.2 coId cfgTw (RState.mk [] [] 0 0 true)
      ("hello".data) rfl rfl (by decide) rfl rfl).2.2 2 (by decide)
    rw [h]
    decide

/-! Lemmas about the bracket-math scanners. -/

theorem openSqAt_not_bs (a : Char) (l : List Char) (ha : a ≠ '\\') :
    openSqAt (a :: l) = none := by
  match l with
  | [] => rfl
  | [b] => simp [openSqAt, ha]
  | b :: c :: r => simp [openSqAt, ha]

theorem openParAt_not_bs (a : Char) (l : List Char) (ha : a ≠ '\\') :
    openParAt (a :: l) = none := by
  match l with
  | [] => rfl
  | [b] => simp [openParAt, ha]
  | b :: c :: r => simp [openParAt, ha]

theorem closeSqAt_not_bs (a : Char) (l : List Char) (ha : a ≠ '\\') :
    closeSqAt (a :: l) = none := by
  match l with
  | [] => rfl
  | [b] => simp [closeSqAt, ha]
  | b :: c :: r => simp [closeSqAt, ha]

theorem closeParAt_not_bs (a : Char) (l : List Char) (ha : a ≠ '\\') :
    closeParAt (a :: l) = none := by
  match l with
  | [] => rfl
  | [b] => simp [closeParAt, ha]
  | b :: c :: r => simp [closeParAt, ha]

theorem openSqAt_bs_other (b : Char) (l : List Char) (hb1 : b ≠ '\\') (hb2 : b ≠ '[') :
    openSqAt ('\\' :: b :: l) = none := by
  match l with
  | [] => simp [openSqAt, hb1, hb2]
  | c :: r => simp [openSqAt, hb1, hb2]

theorem openSqAt_one (r : List Char) : openSqAt ('\\' :: '[' :: r) = some r := by
  match r with
  | [] => rfl
  | c :: r2 => simp [openSqAt]

theorem openSqAt_two (r : List Char) : openSqAt ('\\' :: '\\' :: '[' :: r) = some r := by
  simp [openSqAt]

theorem openParAt_one (r : List Char) : openParAt ('\\' :: '(' :: r) = some r := by
  match r with
  | [] => rfl
  | c :: r2 => simp [openParAt]

theorem closeSqAt_one (r : List Char) : closeSqAt ('\\' :: ']' :: r) = some r := by
  match r with
  | [] => rfl
  | c :: r2 => simp [closeSqAt]

theorem closeSqAt_two (r : List Char) : closeSqAt ('\\' :: '\\' :: ']' :: r) = some r := by
  simp [closeSqAt]

theorem closeParAt_one (r : List Char) : closeParAt ('\\' :: ')' :: r) = some r := by
  match r with
  | [] => rfl
  | c :: r2 => simp [closeParAt]

/-- The lazy close-scan finds the first backslash-bracket close delimiter
when the inner segment is backslash-free. -/
theorem scanCloseSq_one (inner post : List Char) (h : ∀ c ∈ inner, c ≠ '\\') :
    scanCloseSq (inner ++ '\\' :: ']' :: post) = some (inner, post) := by
  induction inner with
  | nil => simp [scanCloseSq, closeSqAt_one]
  | cons a tl ih =>
    have ha : a ≠ '\\' := h a (by simp)
    rw [List.cons_append]
    show (match closeSqAt (a :: (tl ++ '\\' :: ']' :: post)) with
      | some r => some ([], r)
      | none => (scanCloseSq (tl ++ '\\' :: ']' :: post)).map
          (fun (p : List Char × List Char) => (a :: p.1, p.2))) = _
    rw [closeSqAt_not_bs a _ ha, ih (fun c hc => h c (by simp [hc]))]
    rfl

theorem scanCloseSq_two (inner post : List Char) (h : ∀ c ∈ inner, c ≠ '\\') :
    scanCloseSq (inner ++ '\\' :: '\\' :: ']' :: post) = some (inner, post) := by
  induction inner with
  | nil => simp [scanCloseSq, closeSqAt_two]
  | cons a tl ih =>
    have ha : a ≠ '\\' := h a (by simp)
    rw [List.cons_append]
    show (match closeSqAt (a :: (tl ++ '\\' :: '\\' :: ']' :: post)) with
      | some r => some ([], r)
      | none => (scanCloseSq (tl ++ '\\' :: '\\' :: ']' :: post)).map
          (fun (p : List Char × List Char) => (a :: p.1, p.2))) = _
    rw [closeSqAt_not_bs a _ ha, ih (fun c hc => h c (by simp [hc]))]
    rfl

theorem scanClosePar_one (inner post : List Char) (h : ∀ c ∈ inner, c ≠ '\\')
    (hn : ∀ c ∈ inner, c ≠ '\n') :
    scanClosePar (inner ++ '\\' :: ')' :: post) = some (inner, post) := by
  induction inner with
  | nil => simp [scanClosePar, closeParAt_one]
  | cons a tl ih =>
    have ha : a ≠ '\\' := h a (by simp)
    have ha2 : a ≠ '\n' := hn a (by simp)
    rw [List.cons_append]
    show (match closeParAt (a :: (tl ++ '\\' :: ')' :: post)) with
      | some r => some ([], r)
      | none =>
        if a = '\n' then none
        else (scanClosePar (tl ++ '\\' :: ')' :: post)).map
          (fun (p : List Char × List Char) => (a :: p.1, p.2))) = _
    rw [closeParAt_not_bs a _ ha,
      ih (fun c hc => h c (by simp [hc])) (fun c hc => hn c (by simp [hc]))]
    simp [ha2]

/-- The block-math replace loop copies a backslash-free leading segment
unchanged (no match can start without a backslash). -/
theorem rbGo_skip (pre : List Char) (hp : ∀ c ∈ pre, c ≠ '\\') :
    ∀ (fuel : Nat) (cs : List Char),
      rbGo (pre.length + fuel) (pre ++ cs) = pre ++ rbGo fuel cs := by
  induction pre with
  | nil => intro fuel cs; simp
  | cons a tl ih =>
    intro fuel cs
    have ha : a ≠ '\\' := hp a (by simp)
    have hlen : (a :: tl).length + fuel = (tl.length + fuel) + 1 := by
      simp
      omega
    rw [hlen, List.cons_append]
    show (match sqMatchAt (a :: (tl ++ cs)) with
      | some (inner, after) => mathBlockOf inner ++ rbGo (tl.length + fuel) after
      | none => a :: rbGo (tl.length + fuel) (tl ++ cs)) = _
    rw [show sqMatchAt (a :: (tl ++ cs)) = none by
      unfold sqMatchAt
      rw [openSqAt_not_bs a _ ha]]
    rw [ih (fun c hc => hp c (by simp [hc])) fuel cs]
    rfl

/-- The block-math replace loop is the identity on backslash-free input. -/
theorem rbGo_bsfree (cs : List Char) (h : ∀ c ∈ cs, c ≠ '\\') :
    ∀ fuel, rbGo fuel cs = cs := by
  induction cs with
  | nil => intro fuel; cases fuel <;> rfl
  | cons a tl ih =>
    intro fuel
    cases fuel with
    | zero => rfl
    | succ n =>
      have ha : a ≠ '\\' := h a (by simp)
      show (match sqMatchAt (a :: tl) with
        | some (inner, after) => mathBlockOf inner ++ rbGo n after
        | none => a :: rbGo n tl) = _
      rw [show sqMatchAt (a :: tl) = none by
        unfold sqMatchAt
        rw [openSqAt_not_bs a _ ha]]
      rw [ih (fun c hc => h c (by simp [hc])) n]

/-- The inline-math replace loop copies a backslash-free leading segment
unchanged. -/
theorem riGo_skip (pre : List Char) (hp : ∀ c ∈ pre, c ≠ '\\') :
    ∀ (fuel : Nat) (cs : List Char),
      riGo (pre.length + fuel) (pre ++ cs) = pre ++ riGo fuel cs := by
  induction pre with
  | nil => intro fuel cs; simp
  | cons a tl ih =>
    intro fuel cs
    have ha : a ≠ '\\' := hp a (by simp)
    have hlen : (a :: tl).length + fuel = (tl.length + fuel) + 1 := by
      simp
      omega
    rw [hlen, List.cons_append]
    show (match parMatchAt (a :: (tl ++ cs)) with
      | some (inner, after) => mathInlineOf inner ++ riGo (tl.length + fuel) after
      | none => a :: riGo (tl.length + fuel) (tl ++ cs)) = _
    rw [show parMatchAt (a :: (tl ++ cs)) = none by
      unfold parMatchAt
      rw [openParAt_not_bs a _ ha]]
    rw [ih (fun c hc => hp c (by simp [hc])) fuel cs]
    rfl

/-- The inline-math replace loop is the identity on backslash-free input. -/
theorem riGo_bsfree (cs : List Char) (h : ∀ c ∈ cs, c ≠ '\\') :
    ∀ fuel, riGo fuel cs = cs := by
  induction cs with
  | nil => intro fuel; cases fuel <;> rfl
  | cons a tl ih =>
    intro fuel
    cases fuel with
    | zero => rfl
    | succ n =>
      have ha : a ≠ '\\' := h a (by simp)
      show (match parMatchAt (a :: tl) with
        | some (inner, after) => mathInlineOf inner ++ riGo n after
        | none => a :: riGo n tl) = _
      rw [show parMatchAt (a :: tl) = none by
        unfold parMatchAt
        rw [openParAt_not_bs a _ ha]]
      rw [ih (fun c hc => h c (by simp [hc])) n]

/-- One-step unfolding of the block-replace loop (definitional). -/
theorem rbGo_match (fuel : Nat) (a : Char) (rest : List Char) :
    rbGo (fuel + 1) (a :: rest) =
      (match sqMatchAt (a :: rest) with
       | some (inner, after) => mathBlockOf inner ++ rbGo fuel after
       | none => a :: rbGo fuel rest) := rfl

/-- One-step unfolding of the inline-replace loop (definitional). -/
theorem riGo_match (fuel : Nat) (a : Char) (rest : List Char) :
    riGo (fuel + 1) (a :: rest) =
      (match parMatchAt (a :: rest) with
       | some (inner, after) => mathInlineOf inner ++ riGo fuel after
       | none => a :: riGo fuel rest) := rfl

theorem sqMatchAt_one (inner post : List Char) (hi : ∀ c ∈ inner, c ≠ '\\') :
    sqMatchAt ('\\' :: '[' :: (inner ++ '\\' :: ']' :: post)) = some (inner, post) := by
  unfold sqMatchAt
  rw [openSqAt_one]
  exact scanCloseSq_one inner post hi

theorem sqMatchAt_two (inner post : List Char) (hi : ∀ c ∈ inner, c ≠ '\\') :
    sqMatchAt ('\\' :: '\\' :: '[' :: (inner ++ '\\' :: '\\' :: ']' :: post))
      = some (inner, post) := by
  unfold sqMatchAt
  rw [openSqAt_two]
  exact scanCloseSq_two inner post hi

theorem parMatchAt_one (inner post : List Char) (hi : ∀ c ∈ inner, c ≠ '\\')
    (hn : ∀ c ∈ inner, c ≠ '\n') :
    parMatchAt ('\\' :: '(' :: (inner ++ '\\' :: ')' :: post)) = some (inner, post) := by
  unfold parMatchAt
  rw [openParAt_one]
  exact scanClosePar_one inner post hi hn

theorem mathBlockOf_bsfree (inner : List Char) (hi : ∀ c ∈ inner, c ≠ '\\') :
    ∀ c ∈ mathBlockOf inner, c ≠ '\\' := by
  intro c hc
  simp [mathBlockOf] at hc
  rcases hc with rfl | rfl | hc | rfl | rfl
  · decide
  · decide
  · exact hi c hc
  · decide
  · decide

theorem mathInlineOf_bsfree (inner : List Char) (hi : ∀ c ∈ inner, c ≠ '\\') :
    ∀ c ∈ mathInlineOf inner, c ≠ '\\' := by
  intro c hc
  simp [mathInlineOf] at hc
  rcases hc with rfl | hc | rfl
  · decide
  · exact hi c hc
  · decide

/-- With the default configuration, preprocessing is exactly the block
rewrite followed by the inline rewrite. -/
theorem preprocess_default (t : List Char) :
    preprocess cfgDefault t = replaceInlineMath (replaceBlockMath t) := by
  simp [preprocess, cfgDefault]

/-- Block rewrite of a single 1-backslash span in backslash-free context. -/
theorem replaceBlockMath_one (pre inner post : List Char)
    (hp : ∀ c ∈ pre, c ≠ '\\') (hi : ∀ c ∈ inner, c ≠ '\\')
    (hpo : ∀ c ∈ post, c ≠ '\\') :
    replaceBlockMath (pre ++ '\\' :: '[' :: (inner ++ '\\' :: ']' :: post))
      = pre ++ mathBlockOf inner ++ post := by
  unfold replaceBlockMath
  have hlen : (pre ++ '\\' :: '[' :: (inner ++ '\\' :: ']' :: post)).length
      = pre.length + (inner.length + post.length + 4) := by
    simp
    omega
  rw [hlen, rbGo_skip pre hp, List.append_assoc]
  congr 1
  rw [show inner.length + post.length + 4 = (inner.length + post.length + 3) + 1 from rfl,
    rbGo_match, sqMatchAt_one inner post hi]
  show mathBlockOf inner ++ rbGo (inner.length + post.length + 3) post = _
  rw [rbGo_bsfree post hpo]

/-- Block rewrite of a single 2-backslash span in backslash-free context. -/
theorem replaceBlockMath_two (pre inner post : List Char)
    (hp : ∀ c ∈ pre, c ≠ '\\') (hi : ∀ c ∈ inner, c ≠ '\\')
    (hpo : ∀ c ∈ post, c ≠ '\\') :
    replaceBlockMath (pre ++ '\\' :: '\\' :: '[' :: (inner ++ '\\' :: '\\' :: ']' :: post))
      = pre ++ mathBlockOf inner ++ post := by
  unfold replaceBlockMath
  have hlen : (pre ++ '\\' :: '\\' :: '[' :: (inner ++ '\\' :: '\\' :: ']' :: post)).length
      = pre.length + (inner.length + post.length + 6) := by
    simp
    omega
  rw [hlen, rbGo_skip pre hp, List.append_assoc]
  congr 1
  rw [show inner.length + post.length + 6 = (inner.length + post.length + 5) + 1 from rfl,
    rbGo_match, sqMatchAt_two inner post hi]
  show mathBlockOf inner ++ rbGo (inner.length + post.length + 5) post = _
  rw [rbGo_bsfree post hpo]

/-- The block rewrite leaves a single inline (paren) span unchanged. -/
theorem replaceBlockMath_par (pre inner post : List Char)
    (hp : ∀ c ∈ pre, c ≠ '\\') (hi : ∀ c ∈ inner, c ≠ '\\')
    (hpo : ∀ c ∈ post, c ≠ '\\') :
    replaceBlockMath (pre ++ '\\' :: '(' :: (inner ++ '\\' :: ')' :: post))
      = pre ++ '\\' :: '(' :: (inner ++ '\\' :: ')' :: post) := by
  unfold replaceBlockMath
  have hlen : (pre ++ '\\' :: '(' :: (inner ++ '\\' :: ')' :: post)).length
      = pre.length + (inner.length + post.length + 4) := by
    simp
    omega
  rw [hlen, rbGo_skip pre hp]
  congr 1
  rw [show inner.length + post.length + 4 = (inner.length + post.length + 3) + 1 from rfl,
    rbGo_match]
  rw [show sqMatchAt ('\\' :: '(' :: (inner ++ '\\' :: ')' :: post)) = none by
    unfold sqMatchAt
    rw [openSqAt_bs_other '(' _ (by decide) (by decide)]]
  show '\\' :: rbGo (inner.length + post.length + 3) ('(' :: (inner ++ '\\' :: ')' :: post)) = _
  rw [show inner.length + post.length + 3 = (inner.length + post.length + 2) + 1 from rfl,
    rbGo_match]
  rw [show sqMatchAt ('(' :: (inner ++ '\\' :: ')' :: post)) = none by
    unfold sqMatchAt
    rw [openSqAt_not_bs '(' _ (by decide)]]
  show '\\' :: '(' :: rbGo (inner.length + post.length + 2) (inner ++ '\\' :: ')' :: post) = _
  rw [show inner.length + post.length + 2 = inner.length + (post.length + 2) by omega,
    rbGo_skip inner hi]
  rw [show post.length + 2 = (post.length + 1) + 1 from rfl, rbGo_match]
  rw [show sqMatchAt ('\\' :: ')' :: post) = none by
    unfold sqMatchAt
    rw [openSqAt_bs_other ')' _ (by decide) (by decide)]]
  show '\\' :: '(' :: (inner ++ '\\' :: rbGo (post.length + 1) (')' :: post)) = _
  rw [show post.length + 1 = post.length + 1 from rfl, rbGo_match]
  rw [show sqMatchAt (')' :: post) = none by
    unfold sqMatchAt
    rw [openSqAt_not_bs ')' _ (by decide)]]
  show '\\' :: '(' :: (inner ++ '\\' :: ')' :: rbGo post.length post) = _
  rw [rbGo_bsfree post hpo]

/-- Inline rewrite of a single paren span in backslash-free context. -/
theorem replaceInlineMath_one (pre inner post : List Char)
    (hp : ∀ c ∈ pre, c ≠ '\\') (hi : ∀ c ∈ inner, c ≠ '\\')
    (hpo : ∀ c ∈ post, c ≠ '\\') (hn : ∀ c ∈ inner, c ≠ '\n') :
    replaceInlineMath (pre ++ '\\' :: '(' :: (inner ++ '\\' :: ')' :: post))
      = pre ++ mathInlineOf inner ++ post := by
  unfold replaceInlineMath
  have hlen : (pre ++ '\\' :: '(' :: (inner ++ '\\' :: ')' :: post)).length
      = pre.length + (inner.length + post.length + 4) := by
    simp
    omega
  rw [hlen, riGo_skip pre hp, List.append_assoc]
  congr 1
  rw [show inner.length + post.length + 4 = (inner.length + post.length + 3) + 1 from rfl,
    riGo_match, parMatchAt_one inner post hi hn]
  show mathInlineOf inner ++ riGo (inner.length + post.length + 3) post = _
  rw [riGo_bsfree post hpo]

/-- C5: with bracket-style math enabled (default configuration), a span
delimited by backslash-brackets — tolerating one or two backslashes on each
side, with inner text possibly spanning lines — is rewritten to the block
form `$$\n...\n$$`, and a span delimited by backslash-parens (single line)
is rewritten to the inline form `$...$`; in particular `\[x^2\]` becomes
`$$\nx^2\n$$` and `\(x\)` becomes `$x$`.  (The context and inner text are
backslash-free, so the displayed span is the only delimiter occurrence.) -/
theorem C5_bracket_math_rewrite :
    (∀ (pre inner post : List Char),
       (∀ c ∈ pre, c ≠ '\\') → (∀ c ∈ inner, c ≠ '\\') → (∀ c ∈ post, c ≠ '\\') →
       preprocess cfgDefault (pre ++ '\\' :: '[' :: (inner ++ '\\' :: ']' :: post))
         = pre ++ mathBlockOf inner ++ post)
    ∧ (∀ (pre inner post : List Char),
       (∀ c ∈ pre, c ≠ '\\') → (∀ c ∈ inner, c ≠ '\\') → (∀ c ∈ post, c ≠ '\\') →
       preprocess cfgDefault
           (pre ++ '\\' :: '\\' :: '[' :: (inner ++ '\\' :: '\\' :: ']' :: post))
         = pre ++ mathBlockOf inner ++ post)
    ∧ (∀ (pre inner post : List Char),
       (∀ c ∈ pre, c ≠ '\\') → (∀ c ∈ inner, c ≠ '\\') → (∀ c ∈ post, c ≠ '\\') →
       (∀ c ∈ inner, c ≠ '\n') →
       preprocess cfgDefault (pre ++ '\\' :: '(' :: (inner ++ '\\' :: ')' :: post))
         = pre ++ mathInlineOf inner ++ post)
    ∧ preprocess cfgDefault ("\\[x^2\\]".data) = "$$\nx^2\n$$".data
    ∧ preprocess cfgDefault ("\\(x\\)".data) = "$x$".data := by
  have hfree : ∀ (pre inner post : List Char),
      (∀ c ∈ pre, c ≠ '\\') → (∀ c ∈ inner, c ≠ '\\') → (∀ c ∈ post, c ≠ '\\') →
      ∀ c ∈ pre ++ mathBlockOf inner ++ post, c ≠ '\\' := by
    intro pre inner post hp hi hpo c hc
    rcases List.mem_append.mp hc with h | h
    · rcases List.mem_append.mp h with h2 | h2
      · exact hp c h2
      · exact mathBlockOf_bsfree inner hi c h2
    · exact hpo c h
  refine ⟨?_, ?_, ?_, by decide, by decide⟩
  · intro pre inner post hp hi hpo
    rw [preprocess_default, replaceBlockMath_one pre inner post hp hi hpo]
    unfold replaceInlineMath
    exact riGo_bsfree _ (hfree pre inner post hp hi hpo) _
  · intro pre inner post hp hi hpo
    rw [preprocess_default, replaceBlockMath_two pre inner post hp hi hpo]
    unfold replaceInlineMath
    exact riGo_bsfree _ (hfree pre inner post hp hi hpo) _
  · intro pre inner post hp hi hpo hn
    rw [preprocess_default, replaceBlockMath_par pre inner post hp hi hpo,
      replaceInlineMath_one pre inner post hp hi hpo hn]

theorem C5_witness :
    preprocess cfgDefault ("a ".data ++ '\\' :: '[' :: (("x^2".data) ++ '\\' :: ']' :: (" b".data)))
       = "a ".data ++ mathBlockOf ("x^2".data) ++ " b".data
    ∧ preprocess cfgDefault
        ([] ++ '\\' :: '\\' :: '[' :: (("y".data) ++ '\\' :: '\\' :: ']' :: []))
       = [] ++ mathBlockOf ("y".data) ++ []
    ∧ preprocess cfgDefault ("c ".data ++ '\\' :: '(' :: (("x".data) ++ '\\' :: ')' :: []))
       = "c ".data ++ mathInlineOf ("x".data) ++ [] :=
  ⟨C5_bracket_math_rewrite.1 ("a ".data) ("x^2".data) (" b".data)
      (by decide) (by decide) (by decide),
   C5_bracket_math_rewrite.2.1 [] ("y".data) []
      (by decide) (by decide) (by decide),
   C5_bracket_math_rewrite.2.2.1 ("c ".data) ("x".data) []
      (by decide) (by decide) (by decide) (by decide)⟩

/-! Lemmas about line splitting and joining, for the hard-break stage. -/

theorem crlf_id : ∀ (cs : List Char), '\r' ∉ cs → crlfNormalize cs = cs
  | [], _ => rfl
  | [c], _ => rfl
  | c :: d :: rest, h => by
    have hc : c ≠ '\r' := fun hx => h (by rw [hx]; exact List.mem_cons_self _ _)
    have hrec := crlf_id (d :: rest) (fun hx => h (List.mem_cons_of_mem c hx))
    show (if c = '\r' ∧ d = '\n' then '\n' :: crlfNormalize rest
      else c :: crlfNormalize (d :: rest)) = c :: d :: rest
    rw [if_neg (fun hx => hc hx.1), hrec]

theorem splitLines_nonl : ∀ (l : List Char), '\n' ∉ l → splitLines l = [l]
  | [], _ => rfl
  | c :: cs, h => by
    have hc : c ≠ '\n' := fun hx => h (by rw [hx]; exact List.mem_cons_self _ _)
    have hrec := splitLines_nonl cs (fun hx => h (List.mem_cons_of_mem c hx))
    show (if c = '\n' then [] :: splitLines cs
      else match splitLines cs with
        | [] => [[c]]
        | l :: ls => (c :: l) :: ls) = [c :: cs]
    rw [if_neg hc, hrec]

theorem splitLines_append : ∀ (l1 l2 : List Char), '\n' ∉ l1 →
    splitLines (l1 ++ '\n' :: l2) = l1 :: splitLines l2
  | [], l2, _ => by
    show (if '\n' = '\n' then [] :: splitLines l2
      else match splitLines l2 with
        | [] => [['\n']]
        | l :: ls => ('\n' :: l) :: ls) = [] :: splitLines l2
    rw [if_pos rfl]
  | c :: cs, l2, h => by
    have hc : c ≠ '\n' := fun hx => h (by rw [hx]; exact List.mem_cons_self _ _)
    have hrec := splitLines_append cs l2 (fun hx => h (List.mem_cons_of_mem c hx))
    show (if c = '\n' then [] :: splitLines (cs ++ '\n' :: l2)
      else match splitLines (cs ++ '\n' :: l2) with
        | [] => [[c]]
        | l :: ls => (c :: l) :: ls) = (c :: cs) :: splitLines l2
    rw [if_neg hc, hrec]

theorem isEmpty_false_of_ne (l : List Char) (h : l ≠ []) : l.isEmpty = false := by
  cases l with
  | nil => exact absurd rfl h
  | cons a tl => rfl

theorem dropLead_eq : ∀ (p t r : List Char), dropLead t p = some r → t = p ++ r
  | [], t, r, h => by
    have h2 : some t = some r := by
      cases t with
      | nil => exact h
      | cons c cs => exact h
    simp at h2
    rw [h2]
    rfl
  | q :: ps, t, r, h => by
    cases t with
    | nil => exact absurd h (by simp [dropLead])
    | cons c cs =>
      have hif : (if c = q then dropLead cs ps else none) = some r := h
      by_cases hc : c = q
      · rw [if_pos hc] at hif
        rw [hc, dropLead_eq ps cs r hif]
        rfl
      · rw [if_neg hc] at hif
        exact absurd hif (by simp)

theorem closingHtml_shape (t : List Char) (h : closingHtmlBlock t = true) :
    ∃ r, t = '<' :: '/' :: r := by
  unfold closingHtmlBlock at h
  rw [List.any_eq_true] at h
  obtain ⟨tag, _, hm⟩ := h
  cases hd : dropLead t ('<' :: '/' :: (tag ++ ['>'])) with
  | none => rw [hd] at hm; simp at hm
  | some r =>
    refine ⟨(tag ++ ['>']) ++ r, ?_⟩
    have := dropLead_eq ('<' :: '/' :: (tag ++ ['>'])) t r hd
    rw [this]
    simp

/-- The hard-break loop leaves a final line unchanged (its `next` is the
empty string). -/
theorem hbLoop_single (code mth : Bool) (l : List Char) :
    hbLoop code mth [l] = [l] := by
  show (if laStarts (jsTrim l) ("```".data) || laStarts (jsTrim l) ("~~~".data) then
      l :: hbLoop (!code) mth []
    else if laStarts (jsTrim l) ("$$".data) && !code then
      l :: hbLoop code (!mth) []
    else if !code && !mth then
      let next := ([] : List (List Char)).headD []
      let nt := jsTrim next
      let bs := blockStart nt
      let chb := closingHtmlBlock (jsTrim l)
      let line2 :=
        if !(jsTrim l).isEmpty && !nt.isEmpty && !bs && !endsWsWs l
        then l ++ [' ', ' '] else l
      if chb && !nt.isEmpty && !bs then line2 :: [] :: hbLoop code mth []
      else line2 :: hbLoop code mth []
    else l :: hbLoop code mth []) = [l]
  split
  · rfl
  · split
    · rfl
    · split
      · simp [hbLoop, jsTrim]
      · rfl

/-- C6, counterexample: the claim's condition "does not already end in two
trailing spaces" reads the source's `/\s\s$/` test as literal spaces.  The
line `"a\t "` ends in tab + space — not in two spaces — and is followed by a
plain non-empty line, so the claim requires two spaces to be appended; the
code's whitespace test matches tab + space, so nothing is appended and the
input is returned unchanged. -/
theorem C6_counterexample_tab_space :
    applyHardBreaks ("a\t \nb".data) = "a\t \nb".data
    ∧ jsTrim ("a\t ".data) ≠ []
    ∧ jsTrim ("b".data) ≠ []
    ∧ blockStart (jsTrim ("b".data)) = false
    ∧ laStarts (jsTrim ("a\t ".data)) ("```".data) = false
    ∧ laStarts (jsTrim ("a\t ".data)) ("~~~".data) = false
    ∧ laStarts (jsTrim ("a\t ".data)) ("$$".data) = false
    ∧ closingHtmlBlock (jsTrim ("a\t ".data)) = false
    ∧ (("a\t ".data).reverse.take 2 ≠ [' ', ' ']) := by
  decide

/-- C6 (amended): with hard-break mode on, for a non-fence, non-block-math
line with non-empty trimmed content, followed (on the next line) by
non-empty trimmed content that is not a block start, where the line does
not already end in two trailing WHITESPACE characters (the `/\s\s$/` test),
exactly two spaces are appended; a line followed by a heading line is left
unchanged; and a line closing a known block-level HTML tag followed by
non-blank non-block-start content additionally gets a blank line inserted
after it. -/
theorem C6_hard_breaks :
    (∀ (l1 l2 : List Char),
       '\n' ∉ l1 → '\r' ∉ l1 → '\n' ∉ l2 → '\r' ∉ l2 →
       laStarts (jsTrim l1) ("```".data) = false →
       laStarts (jsTrim l1) ("~~~".data) = false →
       laStarts (jsTrim l1) ("$$".data) = false →
       jsTrim l1 ≠ [] → endsWsWs l1 = false →
       closingHtmlBlock (jsTrim l1) = false →
       jsTrim l2 ≠ [] → blockStart (jsTrim l2) = false →
       applyHardBreaks (l1 ++ '\n' :: l2) = l1 ++ ' ' :: ' ' :: '\n' :: l2)
    ∧ (∀ (l1 l2 : List Char),
       '\n' ∉ l1 → '\r' ∉ l1 → '\n' ∉ l2 → '\r' ∉ l2 →
       laStarts (jsTrim l1) ("```".data) = false →
       laStarts (jsTrim l1) ("~~~".data) = false →
       laStarts (jsTrim l1) ("$$".data) = false →
       isHeading (jsTrim l2) = true →
       applyHardBreaks (l1 ++ '\n' :: l2) = l1 ++ '\n' :: l2)
    ∧ (∀ (l1 l2 : List Char),
       '\n' ∉ l1 → '\r' ∉ l1 → '\n' ∉ l2 → '\r' ∉ l2 →
       laStarts (jsTrim l1) ("```".data) = false →
       laStarts (jsTrim l1) ("~~~".data) = false →
       laStarts (jsTrim l1) ("$$".data) = false →
       closingHtmlBlock (jsTrim l1) = true → endsWsWs l1 = false →
       jsTrim l2 ≠ [] → blockStart (jsTrim l2) = false →
       applyHardBreaks (l1 ++ '\n' :: l2) = l1 ++ ' ' :: ' ' :: '\n' :: '\n' :: l2) := by
  have hsplit : ∀ (l1 l2 : List Char), '\n' ∉ l1 → '\r' ∉ l1 → '\n' ∉ l2 → '\r' ∉ l2 →
      applyHardBreaks (l1 ++ '\n' :: l2) = joinLines (hbLoop false false [l1, l2]) := by
    intro l1 l2 hn1 hr1 hn2 hr2
    have hnR : '\r' ∉ l1 ++ '\n' :: l2 := by
      intro hx
      rcases List.mem_append.mp hx with h | h
      · exact hr1 h
      · rcases List.mem_cons.mp h with h2 | h2
        · exact absurd h2 (by decide)
        · exact hr2 h2
    unfold applyHardBreaks
    rw [crlf_id _ hnR, splitLines_append l1 l2 hn1, splitLines_nonl l2 hn2]
  have hshow : ∀ (l1 l2 : List Char), hbLoop false false [l1, l2] =
      (if laStarts (jsTrim l1) ("```".data) || laStarts (jsTrim l1) ("~~~".data) then
        l1 :: hbLoop (!false) false [l2]
      else if laStarts (jsTrim l1) ("$$".data) && !false then
        l1 :: hbLoop false (!false) [l2]
      else if !false && !false then
        (if closingHtmlBlock (jsTrim l1) && !(jsTrim l2).isEmpty
            && !(blockStart (jsTrim l2)) then
          (if !(jsTrim l1).isEmpty && !(jsTrim l2).isEmpty
              && !(blockStart (jsTrim l2)) && !endsWsWs l1
           then l1 ++ [' ', ' '] else l1) :: [] :: hbLoop false false [l2]
         else
          (if !(jsTrim l1).isEmpty && !(jsTrim l2).isEmpty
              && !(blockStart (jsTrim l2)) && !endsWsWs l1
           then l1 ++ [' ', ' '] else l1) :: hbLoop false false [l2])
      else l1 :: hbLoop false false [l2]) := fun l1 l2 => rfl
  refine ⟨?_, ?_, ?_⟩
  · intro l1 l2 hn1 hr1 hn2 hr2 hf1 hf2 hd1 ht1 hw hc ht2 hb
    rw [hsplit l1 l2 hn1 hr1 hn2 hr2, hshow l1 l2, hf1, hf2, hd1, hb, hw, hc,
      isEmpty_false_of_ne _ ht1, isEmpty_false_of_ne _ ht2]
    simp [hbLoop_single]
    show (l1 ++ [' ', ' ']) ++ '\n' :: l2 = _
    simp
  · intro l1 l2 hn1 hr1 hn2 hr2 hf1 hf2 hd1 hh
    have hb2 : blockStart (jsTrim l2) = true := by
      simp [blockStart, hh]
    rw [hsplit l1 l2 hn1 hr1 hn2 hr2, hshow l1 l2, hf1, hf2, hd1, hb2]
    simp [hbLoop_single]
    rfl
  · intro l1 l2 hn1 hr1 hn2 hr2 hf1 hf2 hd1 hchb hw ht2 hb
    obtain ⟨r, hsh⟩ := closingHtml_shape _ hchb
    have ht1 : jsTrim l1 ≠ [] := by
      rw [hsh]
      simp
    rw [hsplit l1 l2 hn1 hr1 hn2 hr2, hshow l1 l2, hf1, hf2, hd1, hb, hw, hchb,
      isEmpty_false_of_ne _ ht1, isEmpty_false_of_ne _ ht2]
    simp [hbLoop_single]
    show (l1 ++ [' ', ' ']) ++ '\n' :: (([] : List Char) ++ '\n' :: l2) = _
    simp

theorem C6_witness :
    applyHardBreaks ("hello\nworld".data) = "hello  \nworld".data
    ∧ applyHardBreaks ("hello\n# head".data) = "hello\n# head".data
    ∧ applyHardBreaks ("</div>\nmore".data) = "</div>  \n\nmore".data := by
  refine ⟨?_, ?_, ?_⟩
  · have h := C6_hard_breaks.1 ("hello".data) ("world".data)
      (by decide) (by decide) (by decide) (by decide) (by decide) (by decide)
      (by decide) (by decide) (by decide) (by decide) (by decide) (by decide)
    rw [show ("hello\nworld".data) = "hello".data ++ '\n' :: "world".data from rfl, h]
    decide
  · have h := C6_hard_breaks.2.1 ("hello".data) ("# head".data)
      (by decide) (by decide) (by decide) (by decide) (by decide) (by decide)
      (by decide) (by decide)
    rw [show ("hello\n# head".data) = "hello".data ++ '\n' :: "# head".data from rfl, h]
  · have h := C6_hard_breaks.2.2 ("</div>".data) ("more".data)
      (by decide) (by decide) (by decide) (by decide) (by decide) (by decide)
      (by decide) (by decide) (by decide) (by decide) (by decide)
    rw [show ("</div>\nmore".data) = "</div>".data ++ '\n' :: "more".data from rfl, h]
    decide
